import Mathlib

/-!
# LapWrap `lapack_zheev.c`: the marshaling done by `mexFunction`

A shallow embedding of `src/LapWrap/lib/mex_files/lapack_zheev.c`.

* `D` is the type of `double` values.  The binding only copies doubles and
  writes the constant `0`, so the embedding is parametric in `D`.
* C `int` values are integers.  The products `(*lda)*(*n)*2` and
  `max(1,*lwork)*2` are taken in `Int`: the embedding covers the calls in which
  they are representable as `int`.  `malloc` is taken to succeed for a
  non-negative size; a negative size gives a buffer without cells.
* Every array access is checked: reading or writing outside an array is a
  `Fault`, so a run that returns `Except.ok` has made in-bounds accesses only.
* The external routine `f77_zheev` is a parameter (`Solver`): any function that
  overwrites in place the buffers `a`, `w`, `work`, `rwork` and the cell `info`
  it is handed.  `jobz`, `uplo`, `n`, `lda` and `lwork` are input arguments of
  the routine.
* The host functions (`mxGetPr`, `mxGetPi`, `mxIsComplex`, `mxDuplicateArray`,
  `mxCreateDoubleMatrix`) are modelled after their documentation.
-/

namespace LapWrap

/-- The ways a run of the marshaling loops can leave its arrays. -/
inductive Fault where
  | oobRead
  | oobWrite
  deriving DecidableEq

/-- Host array (`mxArray`) of doubles: its two dimensions, the real data and,
for a complex array, the imaginary data (separate storage, as `mxGetPr` and
`mxGetPi` expose it). -/
structure MxArray (D : Type) where
  rows : Nat
  cols : Nat
  pr : List D
  pi : Option (List D)
  deriving DecidableEq

/-- `mxGetPr`: the real data of an array. -/
def mxGetPr {D : Type} (x : MxArray D) : List D := x.pr

/-- `mxIsComplex`: whether the array carries imaginary data. -/
def mxIsComplex {D : Type} (x : MxArray D) : Bool := x.pi.isSome

/-- `mxGetPi`: the imaginary data of an array (no cell at all for a real-only
array, where the host returns a null pointer). -/
def mxGetPi {D : Type} (x : MxArray D) : List D := x.pi.getD []

/-- `mxDuplicateArray`: a deep copy. -/
def mxDuplicateArray {α : Type} (x : α) : α := x

/-- `mxCreateDoubleMatrix(m, n, mxCOMPLEX)`: a complex `m × n` array with
every real and imaginary element initialised to `0`.  A negative dimension
counts as `0`, as in the host's array constructors. -/
def mxCreateDoubleMatrix {D : Type} [Zero D] (m n : Int) : MxArray D :=
  { rows := m.toNat, cols := n.toNat,
    pr := List.replicate (m.toNat * n.toNat) 0,
    pi := some (List.replicate (m.toNat * n.toNat) 0) }

/-- `malloc(cells * sizeof(double))`: a fresh buffer of `cells` doubles whose
contents are whatever the heap held (`junk`). -/
def malloc {D : Type} (junk : Nat → D) (cells : Int) : List D :=
  (List.range cells.toNat).map junk

/-- The macro `max(a,b) ((a)<(b) ? (b) : (a))`. -/
def cmax (a b : Int) : Int := if a < b then b else a

/-- Checked read `xs[i]`. -/
def load {D : Type} (xs : List D) (i : Nat) : Except Fault D :=
  match xs[i]? with
  | some v => Except.ok v
  | none => Except.error Fault.oobRead

/-- Checked write `xs[i] = v`. -/
def store {D : Type} (xs : List D) (i : Nat) (v : D) : Except Fault (List D) :=
  if i < xs.length then Except.ok (xs.set i v) else Except.error Fault.oobWrite

/-- The loop `for (i=0; i<bound; i++) body`, threading the memory `s` that the
body updates. -/
def forLoop {σ : Type} (bound : Int) (body : σ → Nat → Except Fault σ) (s : σ) :
    Except Fault σ :=
  (List.range bound.toNat).foldlM body s

/-- Body of the two packing loops (lines 62-69 and 77-84):
`buf[i*2] = pr[i]; if (mxIsComplex(src)) buf[i*2+1] = pi[i]; else buf[i*2+1] = 0;` -/
def packStep {D : Type} [Zero D] (src : MxArray D) (buf : List D) (i : Nat) :
    Except Fault (List D) := do
  let re ← load (mxGetPr src) i
  let buf ← store buf (i * 2) re
  if mxIsComplex src then
    let im ← load (mxGetPi src) i
    store buf (i * 2 + 1) im
  else
    store buf (i * 2 + 1) 0

/-- Body of the two copy-back loops (lines 112-117 and 120-125):
`pr(dst)[i] = buf[2*i]; if (mxIsComplex(dst)) pi(dst)[i] = buf[2*i+1];` -/
def unpackStep {D : Type} (buf : List D) (dst : MxArray D) (i : Nat) :
    Except Fault (MxArray D) := do
  let re ← load buf (2 * i)
  let pr ← store (mxGetPr dst) i re
  let dst := { dst with pr := pr }
  if mxIsComplex dst then
    let im ← load buf (2 * i + 1)
    let pi ← store (mxGetPi dst) i im
    pure { dst with pi := some pi }
  else
    pure dst

/-- The ten right-hand-side values `prhs_m[0..9]`.  Slots 0 and 1 are character
arrays; slots 2, 4, 7 and 9 are the scalars the code reads through
`(int *)mxGetPr(..)`; slots 3, 5, 6 and 8 are arrays of doubles. -/
structure Input (D : Type) where
  jobz : String
  uplo : String
  n : Int
  a : MxArray D
  lda : Int
  w : MxArray D
  work : MxArray D
  lwork : Int
  rwork : MxArray D
  info : Int
  deriving DecidableEq

/-- The ten left-hand-side values `plhs_m[0..9]`, slot for slot. -/
structure Output (D : Type) where
  jobz : String
  uplo : String
  n : Int
  a : MxArray D
  lda : Int
  w : MxArray D
  work : MxArray D
  lwork : Int
  rwork : MxArray D
  info : Int
  deriving DecidableEq

/-- What `f77_zheev` is handed at line 109: the two strings, the four integer
cells and the four buffers of doubles (`a` and `work` interleaved). -/
structure SolverArgs (D : Type) where
  jobz : String
  uplo : String
  n : Int
  a : List D
  lda : Int
  w : List D
  work : List D
  lwork : Int
  rwork : List D
  info : Int
  deriving DecidableEq

/-- The memory `f77_zheev` leaves behind: the buffers `a`, `w`, `work`, `rwork`
and the cell `info`.  `jobz`, `uplo`, `n`, `lda` and `lwork` are input
arguments of the routine, which it reads and does not write. -/
structure SolverPost (D : Type) where
  a : List D
  w : List D
  work : List D
  rwork : List D
  info : Int
  deriving DecidableEq

/-- An external solver: any function of what it is handed that overwrites its
buffers in place, so their lengths stay what they were. -/
structure Solver (D : Type) where
  call : SolverArgs D → SolverPost D
  a_length : ∀ x, (call x).a.length = x.a.length
  w_length : ∀ x, (call x).w.length = x.w.length
  work_length : ∀ x, (call x).work.length = x.work.length
  rwork_length : ∀ x, (call x).rwork.length = x.rwork.length

/-- Lines 41-89 of `mexFunction`: duplicate the scalars, pack `a` and `work`
into freshly allocated interleaved buffers, and take the real data of the
duplicates of `w` and `rwork`; the result is the argument list of the call. -/
def marshalIn {D : Type} [Zero D] (junk : Nat → D) (prhs : Input D) :
    Except Fault (SolverArgs D) := do
  let n := mxDuplicateArray prhs.n
  let lda := mxDuplicateArray prhs.lda
  let lwork := mxDuplicateArray prhs.lwork
  let info := mxDuplicateArray prhs.info
  let jobz := mxDuplicateArray prhs.jobz
  let uplo := mxDuplicateArray prhs.uplo
  let a ← forLoop (lda * n) (packStep prhs.a) (malloc junk (lda * n * 2))
  let w := mxGetPr (mxDuplicateArray prhs.w)
  let work ← forLoop (cmax 1 lwork * 1) (packStep prhs.work)
    (malloc junk (cmax 1 lwork * 1 * 2))
  let rwork := mxGetPr (mxDuplicateArray prhs.rwork)
  pure { jobz := jobz, uplo := uplo, n := n, a := a, lda := lda, w := w,
         work := work, lwork := lwork, rwork := rwork, info := info }

/-- Lines 111-127 of `mexFunction`: create the two complex output arrays, copy
the interleaved buffers back into them, and return the ten slots.  `w`, `rwork`
and `info` point into the duplicates held by slots 5, 8 and 9, so those slots
hold what the solver left there. -/
def marshalOut {D : Type} [Zero D] (prhs : Input D) (post : SolverPost D) :
    Except Fault (Output D) := do
  let n := mxDuplicateArray prhs.n
  let lda := mxDuplicateArray prhs.lda
  let lwork := mxDuplicateArray prhs.lwork
  let p3 ← forLoop (lda * n) (unpackStep post.a) (mxCreateDoubleMatrix lda n)
  let p6 ← forLoop (cmax 1 lwork * 1) (unpackStep post.work)
    (mxCreateDoubleMatrix (cmax 1 lwork) 1)
  pure { jobz := mxDuplicateArray prhs.jobz, uplo := mxDuplicateArray prhs.uplo,
         n := n, a := p3, lda := lda,
         w := { mxDuplicateArray prhs.w with pr := post.w },
         work := p6, lwork := lwork,
         rwork := { mxDuplicateArray prhs.rwork with pr := post.rwork },
         info := post.info }

/-- The whole of `mexFunction`: marshal in, call `f77_zheev`, marshal out. -/
def mexFunction {D : Type} [Zero D] (S : Solver D) (junk : Nat → D) (prhs : Input D) :
    Except Fault (Output D) := do
  let args ← marshalIn junk prhs
  marshalOut prhs (S.call args)

/-- A solver that touches nothing. -/
def idleSolver (D : Type) : Solver D where
  call x := { a := x.a, w := x.w, work := x.work, rwork := x.rwork, info := x.info }
  a_length _ := rfl
  w_length _ := rfl
  work_length _ := rfl
  rwork_length _ := rfl

/-- A solver that only reports `info = -3`. -/
def rejectSolver (D : Type) : Solver D where
  call x := { a := x.a, w := x.w, work := x.work, rwork := x.rwork, info := -3 }
  a_length _ := rfl
  w_length _ := rfl
  work_length _ := rfl
  rwork_length _ := rfl

/-- A 2×2 example: `a = [[2,0],[0,2]]`, real-only. -/
def sampleInput : Input Int :=
  { jobz := "N", uplo := "U", n := 2,
    a := { rows := 2, cols := 2, pr := [2, 0, 0, 2], pi := none },
    lda := 2,
    w := { rows := 2, cols := 1, pr := [0, 0], pi := none },
    work := { rows := 3, cols := 1, pr := [7, 8, 9], pi := some [1, 2, 3] },
    lwork := 3,
    rwork := { rows := 4, cols := 1, pr := [5, 5, 5, 5], pi := none },
    info := 0 }

/-- What the heap holds in the examples. -/
def sampleJunk : Nat → Int := fun _ => 99

/-- A solver that uses `rwork` as scratch space: it overwrites every cell of it
and touches nothing else. -/
def scratchSolver (D : Type) [Zero D] : Solver D where
  call x := { a := x.a, w := x.w, work := x.work, rwork := x.rwork.map (fun _ => 0),
              info := x.info }
  a_length _ := rfl
  w_length _ := rfl
  work_length _ := rfl
  rwork_length x := List.length_map x.rwork _

/-- A solver that writes the cells of `w` back in non-decreasing order. -/
def sortingSolver : Solver Int where
  call x := { a := x.a, w := x.w.insertionSort (· ≤ ·), work := x.work, rwork := x.rwork,
              info := 0 }
  a_length _ := rfl
  w_length x := List.length_insertionSort (· ≤ ·) x.w
  work_length _ := rfl
  rwork_length _ := rfl

/-- The sample call with `lwork = 0` and a `work` array of `lwork` elements,
that is, none. -/
def zeroWorkInput : Input Int :=
  { sampleInput with lwork := 0, work := { rows := 0, cols := 1, pr := [], pi := none } }

/-- The sample call with `n = -1` and `lda = -1`. -/
def negativeDimsInput : Input Int :=
  { sampleInput with n := -1, lda := -1 }

/-- The sample call with `n = -1` and `lda = 2`. -/
def negativeOrderInput : Input Int :=
  { sampleInput with n := -1 }

/-- The sample call as a workspace query, `lwork = -1`. -/
def queryInput : Input Int :=
  { sampleInput with lwork := -1 }

/-- The sample call with `w = [3, 1, 2]` on entry. -/
def unsortedInput : Input Int :=
  { sampleInput with w := { rows := 3, cols := 1, pr := [3, 1, 2], pi := none } }

/-- The spec's view of the imaginary part of an array: the stored imaginary
data, or `0` for every element of a real-only array. -/
def imagPart {D : Type} [Zero D] (x : MxArray D) : List D :=
  match x.pi with
  | some im => im
  | none => List.replicate x.pr.length 0

/-- The array holds at least `k` elements: `k` real parts and, when it is
complex, `k` imaginary parts. -/
def MxArray.HoldsAtLeast {D : Type} (x : MxArray D) (k : Nat) : Prop :=
  k ≤ x.pr.length ∧ ∀ im, im ∈ x.pi → k ≤ im.length

instance {D : Type} (x : MxArray D) (k : Nat) : Decidable (x.HoldsAtLeast k) :=
  inferInstanceAs (Decidable (k ≤ x.pr.length ∧ ∀ im, im ∈ x.pi → k ≤ im.length))

/-- The arrays of slots 3 and 6 hold the elements the packing loops read:
`lda*n` for `a` and `max(1,lwork)` for `work`. -/
def Input.Readable {D : Type} (prhs : Input D) : Prop :=
  prhs.a.HoldsAtLeast (prhs.lda * prhs.n).toNat ∧
  prhs.work.HoldsAtLeast (cmax 1 prhs.lwork).toNat

instance {D : Type} (prhs : Input D) : Decidable prhs.Readable :=
  inferInstanceAs (Decidable (prhs.a.HoldsAtLeast (prhs.lda * prhs.n).toNat ∧
    prhs.work.HoldsAtLeast (cmax 1 prhs.lwork).toNat))

/-- State of a packing loop after `k` iterations: the buffer keeps its length
and its first `k` pairs are the first `k` elements of the source. -/
def PackInv {D : Type} [Zero D] (src : MxArray D) (len : Nat) (k : Nat) (buf : List D) :
    Prop :=
  buf.length = len ∧
  ∀ j, j < k → buf[2 * j]? = src.pr[j]? ∧ buf[2 * j + 1]? = (imagPart src)[j]?

/-- State of a copy-back loop after `k` iterations: the destination keeps its
shape and stays complex, and its first `k` elements are the first `k` pairs of
the buffer. -/
def UnpackInv {D : Type} (buf : List D) (r c : Nat) (k : Nat) (dst : MxArray D) : Prop :=
  dst.rows = r ∧ dst.cols = c ∧ dst.pr.length = r * c ∧
  ∃ im, dst.pi = some im ∧ im.length = r * c ∧
    ∀ j, j < k → dst.pr[j]? = buf[2 * j]? ∧ im[j]? = buf[2 * j + 1]?

/-! ## Loops -/

theorem forLoop_invariant {σ : Type} (Inv : Nat → σ → Prop)
    (body : σ → Nat → Except Fault σ) (N : Nat) (s : σ) (h0 : Inv 0 s)
    (hstep : ∀ k t, k < N → Inv k t → ∃ t', body t k = Except.ok t' ∧ Inv (k + 1) t') :
    ∃ t, (List.range N).foldlM body s = Except.ok t ∧ Inv N t := by
  induction N with
  | zero => exact ⟨s, rfl, h0⟩
  | succ N ih =>
    obtain ⟨t, ht, hInv⟩ := ih (fun k t hk => hstep k t (Nat.lt_succ_of_lt hk))
    obtain ⟨t', ht', hInv'⟩ := hstep N t (Nat.lt_succ_self N) hInv
    refine ⟨t', ?_, hInv'⟩
    rw [List.range_succ, List.foldlM_append, ht]
    simp [bind, Except.bind, pure, Except.pure, ht']

theorem load_of_getElem? {D : Type} {xs : List D} {i : Nat} {v : D}
    (h : xs[i]? = some v) : load xs i = Except.ok v := by
  simp [load, h]

theorem store_of_lt {D : Type} {xs : List D} {i : Nat} (v : D) (h : i < xs.length) :
    store xs i v = Except.ok (xs.set i v) := by
  simp [store, h]

theorem packStep_invariant {D : Type} [Zero D] (src : MxArray D) (N : Nat)
    (hsrc : src.HoldsAtLeast N) (k : Nat) (buf : List D) (hk : k < N)
    (hInv : PackInv src (2 * N) k buf) :
    ∃ buf', packStep src buf k = Except.ok buf' ∧ PackInv src (2 * N) (k + 1) buf' := by
  obtain ⟨hlen, hpre⟩ := hInv
  obtain ⟨hpr, hpi⟩ := hsrc
  have hkpr : k < src.pr.length := by omega
  have h0 : k * 2 < buf.length := by omega
  have h1 : k * 2 + 1 < (buf.set (k * 2) src.pr[k]).length := by
    rw [List.length_set]; omega
  have hload : load (mxGetPr src) k = Except.ok src.pr[k] :=
    load_of_getElem? (by simp [mxGetPr, List.getElem?_eq_getElem hkpr])
  cases hc : src.pi with
  | none =>
    refine ⟨(buf.set (k * 2) src.pr[k]).set (k * 2 + 1) 0, ?_, ?_, ?_⟩
    · simp [packStep, hload, store_of_lt _ h0, store_of_lt _ h1, mxIsComplex, hc,
        bind, Except.bind]
    · simp [hlen]
    · intro j hj
      rcases Nat.lt_succ_iff_lt_or_eq.mp hj with hlt | rfl
      · obtain ⟨e0, e1⟩ := hpre j hlt
        rw [List.getElem?_set_ne (by omega), List.getElem?_set_ne (by omega),
          List.getElem?_set_ne (by omega), List.getElem?_set_ne (by omega)]
        exact ⟨e0, e1⟩
      · constructor
        · rw [List.getElem?_set_ne (by omega), show 2 * j = j * 2 by omega,
            List.getElem?_set_self h0, List.getElem?_eq_getElem hkpr]
        · rw [show 2 * j + 1 = j * 2 + 1 by omega, List.getElem?_set_self h1]
          simp [imagPart, hc, List.getElem?_replicate, hkpr]
  | some im =>
    have hkim : k < im.length := by have := hpi im hc; omega
    have hloadi : load (mxGetPi src) k = Except.ok im[k] :=
      load_of_getElem? (by simp [mxGetPi, hc, List.getElem?_eq_getElem hkim])
    refine ⟨(buf.set (k * 2) src.pr[k]).set (k * 2 + 1) im[k], ?_, ?_, ?_⟩
    · simp [packStep, hload, hloadi, store_of_lt _ h0, store_of_lt _ h1, mxIsComplex, hc,
        bind, Except.bind]
    · simp [hlen]
    · intro j hj
      rcases Nat.lt_succ_iff_lt_or_eq.mp hj with hlt | rfl
      · obtain ⟨e0, e1⟩ := hpre j hlt
        rw [List.getElem?_set_ne (by omega), List.getElem?_set_ne (by omega),
          List.getElem?_set_ne (by omega), List.getElem?_set_ne (by omega)]
        exact ⟨e0, e1⟩
      · constructor
        · rw [List.getElem?_set_ne (by omega), show 2 * j = j * 2 by omega,
            List.getElem?_set_self h0, List.getElem?_eq_getElem hkpr]
        · rw [show 2 * j + 1 = j * 2 + 1 by omega, List.getElem?_set_self h1]
          simp [imagPart, hc, List.getElem?_eq_getElem hkim]

/-- A packing loop over `N` elements of a source that holds them returns a
buffer of `2*N` cells with the source interleaved. -/
theorem packLoop_ok {D : Type} [Zero D] (src : MxArray D) (junk : Nat → D) (c : Int)
    (hsrc : src.HoldsAtLeast c.toNat) :
    ∃ buf, forLoop c (packStep src) (malloc junk (c * 2)) = Except.ok buf ∧
      PackInv src (2 * c.toNat) c.toNat buf := by
  unfold forLoop
  apply forLoop_invariant (PackInv src (2 * c.toNat)) (packStep src) c.toNat
  · refine ⟨?_, fun j hj => absurd hj (Nat.not_lt_zero j)⟩
    simp only [malloc, List.length_map, List.length_range]
    omega
  · intro k t hk hInv
    exact packStep_invariant src c.toNat hsrc k t hk hInv

theorem unpackStep_invariant {D : Type} (buf : List D) (r c N : Nat)
    (hbuf : 2 * N ≤ buf.length) (hN : N ≤ r * c) (k : Nat) (dst : MxArray D) (hk : k < N)
    (hInv : UnpackInv buf r c k dst) :
    ∃ dst', unpackStep buf dst k = Except.ok dst' ∧ UnpackInv buf r c (k + 1) dst' := by
  obtain ⟨hr, hc, hlen, im, him, himlen, hpre⟩ := hInv
  have hb0 : 2 * k < buf.length := by omega
  have hb1 : 2 * k + 1 < buf.length := by omega
  have hp : k < (mxGetPr dst).length := by simp only [mxGetPr]; omega
  have hi : k < (mxGetPi dst).length := by simp only [mxGetPi, him, Option.getD_some]; omega
  have hl0 : load buf (2 * k) = Except.ok buf[2 * k] :=
    load_of_getElem? (List.getElem?_eq_getElem hb0)
  have hl1 : load buf (2 * k + 1) = Except.ok buf[2 * k + 1] :=
    load_of_getElem? (List.getElem?_eq_getElem hb1)
  refine ⟨{ dst with pr := dst.pr.set k buf[2 * k], pi := some (im.set k buf[2 * k + 1]) },
    ?_, hr, hc, ?_, im.set k buf[2 * k + 1], rfl, ?_, ?_⟩
  · have hi' : k < im.length := by omega
    have hp' : k < dst.pr.length := by omega
    simp [unpackStep, hl0, hl1, store, mxIsComplex, mxGetPr, mxGetPi, him, hi', hp',
      bind, Except.bind, pure, Except.pure]
  · simp [hlen]
  · simp [himlen]
  · intro j hj
    rcases Nat.lt_succ_iff_lt_or_eq.mp hj with hlt | rfl
    · obtain ⟨e0, e1⟩ := hpre j hlt
      simp only []
      rw [List.getElem?_set_ne (by omega), List.getElem?_set_ne (by omega)]
      exact ⟨e0, e1⟩
    · simp only []
      rw [List.getElem?_set_self (by simpa [mxGetPr] using hp),
        List.getElem?_set_self (by omega), List.getElem?_eq_getElem hb0,
        List.getElem?_eq_getElem hb1]
      exact ⟨rfl, rfl⟩

/-- A copy-back loop over `c` elements into the freshly created `m × n` complex
array returns when the buffer holds `c` pairs and the array `c` elements. -/
theorem unpackLoop_ok {D : Type} [Zero D] (buf : List D) (m n c : Int)
    (hbuf : 2 * c.toNat ≤ buf.length) (hc : c.toNat ≤ m.toNat * n.toNat) :
    ∃ dst, forLoop c (unpackStep buf) (mxCreateDoubleMatrix m n) = Except.ok dst ∧
      UnpackInv buf m.toNat n.toNat c.toNat dst := by
  unfold forLoop
  apply forLoop_invariant (UnpackInv buf m.toNat n.toNat) (unpackStep buf) c.toNat
  · exact ⟨rfl, rfl, by simp [mxCreateDoubleMatrix], _, rfl, by simp,
      fun j hj => absurd hj (Nat.not_lt_zero j)⟩
  · intro k t hk hInv
    exact unpackStep_invariant buf m.toNat n.toNat c.toNat hbuf hc k t hk hInv

theorem toNat_mul_of_nonneg (x y : Int) (h : 0 ≤ x ∨ 0 ≤ y) :
    (x * y).toNat = x.toNat * y.toNat := by
  by_cases hx : 0 ≤ x <;> by_cases hy : 0 ≤ y
  · apply Int.ofNat_inj.mp
    rw [Int.natCast_mul, Int.toNat_of_nonneg hx, Int.toNat_of_nonneg hy,
      Int.toNat_of_nonneg (Int.mul_nonneg hx hy)]
  · have h1 : x * y ≤ 0 := Int.mul_nonpos_of_nonneg_of_nonpos hx (by omega)
    have h2 : y.toNat = 0 := by omega
    have h3 : (x * y).toNat = 0 := by omega
    rw [h2, h3, Nat.mul_zero]
  · have h1 : x * y ≤ 0 := Int.mul_nonpos_of_nonpos_of_nonneg (by omega) hy
    have h2 : x.toNat = 0 := by omega
    have h3 : (x * y).toNat = 0 := by omega
    rw [h2, h3, Nat.zero_mul]
  · rcases h with h | h <;> omega

theorem cmax_one_pos (l : Int) : 1 ≤ cmax 1 l := by
  unfold cmax; split <;> omega

/-! ## The two halves of `mexFunction` -/

/-- On a readable input the packing half returns, and the two buffers it hands
over hold the sources interleaved. -/
theorem marshalIn_ok {D : Type} [Zero D] (junk : Nat → D) (prhs : Input D)
    (hR : prhs.Readable) :
    ∃ abuf wbuf,
      marshalIn junk prhs = Except.ok
        { jobz := prhs.jobz, uplo := prhs.uplo, n := prhs.n, a := abuf, lda := prhs.lda,
          w := prhs.w.pr, work := wbuf, lwork := prhs.lwork, rwork := prhs.rwork.pr,
          info := prhs.info } ∧
      PackInv prhs.a (2 * (prhs.lda * prhs.n).toNat) (prhs.lda * prhs.n).toNat abuf ∧
      PackInv prhs.work (2 * (cmax 1 prhs.lwork).toNat) (cmax 1 prhs.lwork).toNat wbuf := by
  obtain ⟨abuf, ha, hInvA⟩ := packLoop_ok prhs.a junk (prhs.lda * prhs.n) hR.1
  obtain ⟨wbuf, hw, hInvW⟩ := packLoop_ok prhs.work junk (cmax 1 prhs.lwork) hR.2
  refine ⟨abuf, wbuf, ?_, hInvA, hInvW⟩
  simp [marshalIn, mxDuplicateArray, mxGetPr, ha, hw, bind, Except.bind, pure, Except.pure]

/-- The copy-back half returns when the buffers still have the lengths they
were allocated with and `lda`, `n` are not both negative. -/
theorem marshalOut_ok {D : Type} [Zero D] (prhs : Input D) (post : SolverPost D)
    (hd : 0 ≤ prhs.lda ∨ 0 ≤ prhs.n)
    (ha : post.a.length = 2 * (prhs.lda * prhs.n).toNat)
    (hw : post.work.length = 2 * (cmax 1 prhs.lwork).toNat) :
    ∃ p3 p6,
      marshalOut prhs post = Except.ok
        { jobz := prhs.jobz, uplo := prhs.uplo, n := prhs.n, a := p3, lda := prhs.lda,
          w := { prhs.w with pr := post.w }, work := p6, lwork := prhs.lwork,
          rwork := { prhs.rwork with pr := post.rwork }, info := post.info } ∧
      UnpackInv post.a prhs.lda.toNat prhs.n.toNat (prhs.lda * prhs.n).toNat p3 ∧
      UnpackInv post.work (cmax 1 prhs.lwork).toNat 1 (cmax 1 prhs.lwork).toNat p6 := by
  obtain ⟨p3, h3, hInv3⟩ := unpackLoop_ok post.a prhs.lda prhs.n (prhs.lda * prhs.n)
    (by omega) (by rw [toNat_mul_of_nonneg _ _ hd])
  obtain ⟨p6, h6, hInv6⟩ := unpackLoop_ok post.work (cmax 1 prhs.lwork) 1 (cmax 1 prhs.lwork)
    (by omega) (by simp)
  refine ⟨p3, p6, ?_, hInv3, by simpa using hInv6⟩
  simp [marshalOut, mxDuplicateArray, h3, h6, bind, Except.bind, pure, Except.pure]

/-- On a readable input whose `lda` and `n` are not both negative the whole
call returns: the solver is handed the packed buffers and the ten output slots
are built from what it leaves behind. -/
theorem mexFunction_ok {D : Type} [Zero D] (S : Solver D) (junk : Nat → D) (prhs : Input D)
    (hR : prhs.Readable) (hd : 0 ≤ prhs.lda ∨ 0 ≤ prhs.n) :
    ∃ args p3 p6,
      marshalIn junk prhs = Except.ok args ∧
      args.jobz = prhs.jobz ∧ args.uplo = prhs.uplo ∧ args.n = prhs.n ∧
      args.lda = prhs.lda ∧ args.w = prhs.w.pr ∧ args.lwork = prhs.lwork ∧
      args.rwork = prhs.rwork.pr ∧ args.info = prhs.info ∧
      PackInv prhs.a (2 * (prhs.lda * prhs.n).toNat) (prhs.lda * prhs.n).toNat args.a ∧
      PackInv prhs.work (2 * (cmax 1 prhs.lwork).toNat) (cmax 1 prhs.lwork).toNat args.work ∧
      mexFunction S junk prhs = Except.ok
        { jobz := prhs.jobz, uplo := prhs.uplo, n := prhs.n, a := p3, lda := prhs.lda,
          w := { prhs.w with pr := (S.call args).w }, work := p6, lwork := prhs.lwork,
          rwork := { prhs.rwork with pr := (S.call args).rwork },
          info := (S.call args).info } ∧
      UnpackInv (S.call args).a prhs.lda.toNat prhs.n.toNat (prhs.lda * prhs.n).toNat p3 ∧
      UnpackInv (S.call args).work (cmax 1 prhs.lwork).toNat 1 (cmax 1 prhs.lwork).toNat p6 := by
  obtain ⟨abuf, wbuf, hin, hA, hW⟩ := marshalIn_ok junk prhs hR
  have hla := (S.a_length
    { jobz := prhs.jobz, uplo := prhs.uplo, n := prhs.n, a := abuf, lda := prhs.lda,
      w := prhs.w.pr, work := wbuf, lwork := prhs.lwork, rwork := prhs.rwork.pr,
      info := prhs.info }).trans hA.1
  have hlw := (S.work_length
    { jobz := prhs.jobz, uplo := prhs.uplo, n := prhs.n, a := abuf, lda := prhs.lda,
      w := prhs.w.pr, work := wbuf, lwork := prhs.lwork, rwork := prhs.rwork.pr,
      info := prhs.info }).trans hW.1
  obtain ⟨p3, p6, hout, h3, h6⟩ := marshalOut_ok prhs (S.call _) hd hla hlw
  refine ⟨_, p3, p6, hin, rfl, rfl, rfl, rfl, rfl, rfl, rfl, rfl, hA, hW, ?_, h3, h6⟩
  simp only [mexFunction, hin, bind, Except.bind]
  exact hout

/-- A copied-back array whose buffer is the packed source is the source cut to
the number of elements copied. -/
theorem unpack_of_pack {D : Type} [Zero D] (src dst : MxArray D) (buf : List D)
    (r c k : Nat) (hk : k = r * c) (hsrc : src.HoldsAtLeast k)
    (hP : PackInv src (2 * k) k buf) (hU : UnpackInv buf r c k dst) :
    dst.pr = src.pr.take k ∧ dst.pi = some ((imagPart src).take k) := by
  obtain ⟨-, -, hlen, im, him, himlen, hpre⟩ := hU
  have himag : k ≤ (imagPart src).length := by
    unfold imagPart
    cases hc : src.pi with
    | none => simpa using hsrc.1
    | some im' => exact hsrc.2 im' hc
  constructor
  · apply List.ext_getElem?
    intro j
    by_cases hj : j < k
    · rw [(hpre j hj).1, (hP.2 j hj).1, List.getElem?_take_of_lt hj]
    · rw [List.getElem?_eq_none (by omega), List.getElem?_eq_none]
      rw [List.length_take]; omega
  · rw [him]
    congr 1
    apply List.ext_getElem?
    intro j
    by_cases hj : j < k
    · rw [(hpre j hj).2, (hP.2 j hj).2, List.getElem?_take_of_lt hj]
    · rw [List.getElem?_eq_none (by omega), List.getElem?_eq_none]
      rw [List.length_take]; omega

/-! ## When the call returns -/

theorem forLoop_ok_invariant {σ : Type} (Inv : Nat → σ → Prop)
    (body : σ → Nat → Except Fault σ) (N : Nat) (s : σ) (h0 : Inv 0 s)
    (hstep : ∀ k u u', k < N → Inv k u → body u k = Except.ok u' → Inv (k + 1) u') :
    ∀ t, (List.range N).foldlM body s = Except.ok t → Inv N t := by
  induction N with
  | zero =>
    intro t ht
    simp only [List.range_zero, List.foldlM_nil, pure, Except.pure] at ht
    cases ht
    exact h0
  | succ N ih =>
    intro t ht
    rw [List.range_succ, List.foldlM_append] at ht
    cases hrun : (List.range N).foldlM body s with
    | error e => simp [hrun, bind, Except.bind] at ht
    | ok u =>
      have hu := ih (fun k v v' hk => hstep k v v' (Nat.lt_succ_of_lt hk)) u hrun
      cases hb : body u N with
      | error e => simp [hrun, hb, bind, Except.bind] at ht
      | ok u' =>
        simp [hrun, hb, bind, Except.bind, pure, Except.pure] at ht
        subst ht
        exact hstep N u u' (Nat.lt_succ_self N) hu hb

theorem load_ok_lt {D : Type} {xs : List D} {i : Nat} {v : D}
    (h : load xs i = Except.ok v) : i < xs.length := by
  unfold load at h
  cases hx : xs[i]? with
  | none => simp [hx] at h
  | some w =>
    by_contra hlt
    rw [List.getElem?_eq_none (by omega)] at hx
    cases hx

theorem store_ok_lt {D : Type} {xs ys : List D} {i : Nat} {v : D}
    (h : store xs i v = Except.ok ys) : i < xs.length ∧ ys.length = xs.length := by
  unfold store at h
  split at h
  · cases h
    exact ⟨by assumption, List.length_set _ _ _⟩
  · cases h

/-- A packing step that returns has read element `k` of its source. -/
theorem packStep_ok_reads {D : Type} [Zero D] (src : MxArray D) (buf buf' : List D) (k : Nat)
    (h : packStep src buf k = Except.ok buf') :
    k < src.pr.length ∧ ∀ im, im ∈ src.pi → k < im.length := by
  unfold packStep at h
  cases h1 : load (mxGetPr src) k with
  | error e => simp [h1, bind, Except.bind] at h
  | ok re =>
    refine ⟨load_ok_lt h1, fun im him => ?_⟩
    have him' : src.pi = some im := him
    cases h2 : store buf (k * 2) re with
    | error e => simp [h1, h2, bind, Except.bind] at h
    | ok b2 =>
      cases h3 : load (mxGetPi src) k with
      | error e => simp [h1, h2, h3, mxIsComplex, him', bind, Except.bind] at h
      | ok v =>
        have := load_ok_lt h3
        simpa [mxGetPi, him'] using this

/-- A copy-back step that returns has written element `k` of its destination,
whose real data keeps its length. -/
theorem unpackStep_ok_writes {D : Type} (buf : List D) (dst dst' : MxArray D) (k : Nat)
    (h : unpackStep buf dst k = Except.ok dst') :
    k < dst.pr.length ∧ dst'.pr.length = dst.pr.length := by
  unfold unpackStep at h
  cases h1 : load buf (2 * k) with
  | error e => simp [h1, bind, Except.bind] at h
  | ok re =>
    cases h2 : store (mxGetPr dst) k re with
    | error e => simp [h1, h2, bind, Except.bind] at h
    | ok pr' =>
      obtain ⟨hlt, hlen⟩ := store_ok_lt h2
      refine ⟨hlt, ?_⟩
      simp only [h1, h2, bind, Except.bind] at h
      split at h
      · cases h3 : load buf (2 * k + 1) with
        | error e => simp [h3] at h
        | ok im =>
          simp only [h3] at h
          split at h
          · cases h
          · simp only [pure, Except.pure, Except.ok.injEq] at h
            subst h
            exact hlen
      · simp only [pure, Except.pure, Except.ok.injEq] at h
        subst h
        exact hlen

theorem packLoop_ok_holds {D : Type} [Zero D] (src : MxArray D) (c : Int) (buf0 buf : List D)
    (h : forLoop c (packStep src) buf0 = Except.ok buf) : src.HoldsAtLeast c.toNat := by
  unfold forLoop at h
  exact forLoop_ok_invariant (fun k _ => src.HoldsAtLeast k) (packStep src) c.toNat buf0
    ⟨Nat.zero_le _, fun _ _ => Nat.zero_le _⟩
    (fun k u u' _ _ hb =>
      ⟨(packStep_ok_reads src u u' k hb).1, fun im him => (packStep_ok_reads src u u' k hb).2 im him⟩)
    buf h

theorem unpackLoop_ok_fits {D : Type} (buf : List D) (c : Int) (dst0 dst : MxArray D)
    (h : forLoop c (unpackStep buf) dst0 = Except.ok dst) : c.toNat ≤ dst0.pr.length := by
  unfold forLoop at h
  exact (forLoop_ok_invariant (fun k d => d.pr.length = dst0.pr.length ∧ k ≤ dst0.pr.length)
    (unpackStep buf) c.toNat dst0 ⟨rfl, Nat.zero_le _⟩
    (fun k u u' _ hInv hb => by
      obtain ⟨hlt, hlen⟩ := unpackStep_ok_writes buf u u' k hb
      exact ⟨hlen.trans hInv.1, by omega⟩)
    dst h).2

/-- The packing half returns only on a readable input. -/
theorem marshalIn_ok_readable {D : Type} [Zero D] (junk : Nat → D) (prhs : Input D)
    (args : SolverArgs D) (h : marshalIn junk prhs = Except.ok args) : prhs.Readable := by
  unfold marshalIn at h
  simp only [mxDuplicateArray, Int.mul_one] at h
  cases ha : forLoop (prhs.lda * prhs.n) (packStep prhs.a) (malloc junk (prhs.lda * prhs.n * 2)) with
  | error e => simp [ha, bind, Except.bind] at h
  | ok abuf =>
    cases hw : forLoop (cmax 1 prhs.lwork) (packStep prhs.work)
        (malloc junk (cmax 1 prhs.lwork * 2)) with
    | error e => simp [ha, hw, bind, Except.bind] at h
    | ok wbuf => exact ⟨packLoop_ok_holds _ _ _ _ ha, packLoop_ok_holds _ _ _ _ hw⟩

/-- The copy-back half returns only when `lda` and `n` are not both negative. -/
theorem marshalOut_ok_dims {D : Type} [Zero D] (prhs : Input D) (post : SolverPost D)
    (out : Output D) (h : marshalOut prhs post = Except.ok out) :
    0 ≤ prhs.lda ∨ 0 ≤ prhs.n := by
  unfold marshalOut at h
  simp only [mxDuplicateArray] at h
  cases h3 : forLoop (prhs.lda * prhs.n) (unpackStep post.a)
      (mxCreateDoubleMatrix prhs.lda prhs.n) with
  | error e => simp [h3, bind, Except.bind] at h
  | ok p3 =>
    have hfit := unpackLoop_ok_fits _ _ _ _ h3
    simp only [mxCreateDoubleMatrix, List.length_replicate] at hfit
    by_contra hneg
    have hl : prhs.lda < 0 := by omega
    have hn : prhs.n < 0 := by omega
    have hpos : 0 < prhs.lda * prhs.n := Int.mul_pos_of_neg_of_neg hl hn
    have h0 : prhs.lda.toNat = 0 := by omega
    rw [h0, Nat.zero_mul] at hfit
    omega

/-- Whatever the solver, the call returns exactly on the inputs whose arrays
hold the elements the loops access: `a` holds `lda*n` and `work` holds
`max(1,lwork)` elements, and `lda`, `n` are not both negative. -/
theorem mexFunction_returns_iff {D : Type} [Zero D] (S : Solver D) (junk : Nat → D)
    (prhs : Input D) :
    (∃ out, mexFunction S junk prhs = Except.ok out) ↔
      prhs.Readable ∧ (0 ≤ prhs.lda ∨ 0 ≤ prhs.n) := by
  constructor
  · rintro ⟨out, h⟩
    unfold mexFunction at h
    cases hin : marshalIn junk prhs with
    | error e => simp [hin, bind, Except.bind] at h
    | ok args =>
      simp only [hin, bind, Except.bind] at h
      exact ⟨marshalIn_ok_readable junk prhs args hin, marshalOut_ok_dims prhs _ out h⟩
  · rintro ⟨hR, hd⟩
    obtain ⟨args, p3, p6, -, -, -, -, -, -, -, -, -, -, -, hout, -, -⟩ :=
      mexFunction_ok S junk prhs hR hd
    exact ⟨_, hout⟩

/-- What a returned call has done: the solver was handed the packed buffers
and the scalars of the input, and the ten output slots are the duplicated
scalars, the copied-back buffers and the cells of `w`, `rwork` and `info` as the
solver left them. -/
theorem mexFunction_inv {D : Type} [Zero D] (S : Solver D) (junk : Nat → D) (prhs : Input D)
    (args : SolverArgs D) (out : Output D) (hin : marshalIn junk prhs = Except.ok args)
    (hret : mexFunction S junk prhs = Except.ok out) :
    (0 ≤ prhs.lda ∨ 0 ≤ prhs.n) ∧ prhs.Readable ∧
    args.w = prhs.w.pr ∧ args.rwork = prhs.rwork.pr ∧ args.info = prhs.info ∧
    args.n = prhs.n ∧
    PackInv prhs.a (2 * (prhs.lda * prhs.n).toNat) (prhs.lda * prhs.n).toNat args.a ∧
    PackInv prhs.work (2 * (cmax 1 prhs.lwork).toNat) (cmax 1 prhs.lwork).toNat args.work ∧
    out.jobz = prhs.jobz ∧ out.uplo = prhs.uplo ∧ out.n = prhs.n ∧ out.lda = prhs.lda ∧
    out.lwork = prhs.lwork ∧
    out.w = { prhs.w with pr := (S.call args).w } ∧
    out.rwork = { prhs.rwork with pr := (S.call args).rwork } ∧
    out.info = (S.call args).info ∧
    UnpackInv (S.call args).a prhs.lda.toNat prhs.n.toNat (prhs.lda * prhs.n).toNat out.a ∧
    UnpackInv (S.call args).work (cmax 1 prhs.lwork).toNat 1 (cmax 1 prhs.lwork).toNat
      out.work := by
  obtain ⟨hR, hd⟩ := (mexFunction_returns_iff S junk prhs).mp ⟨out, hret⟩
  obtain ⟨args', p3, p6, hin', -, -, hn, -, hw, -, hrw, hinfo, hA, hW, hout, h3, h6⟩ :=
    mexFunction_ok S junk prhs hR hd
  have hargs : args' = args := Except.ok.inj (hin'.symm.trans hin)
  subst hargs
  have hout' := Except.ok.inj (hret.symm.trans hout)
  subst hout'
  exact ⟨hd, hR, hw, hrw, hinfo, hn, hA, hW, rfl, rfl, rfl, rfl, rfl, rfl, rfl, rfl, h3, h6⟩

/-- The packing step reads a real-only source exactly as it reads the same
source with an imaginary part of zeros. -/
theorem packStep_real_eq_zero_imag {D : Type} [Zero D] (r c : Nat) (re : List D) :
    packStep { rows := r, cols := c, pr := re, pi := none } =
    packStep { rows := r, cols := c, pr := re, pi := some (List.replicate re.length 0) } := by
  funext buf i
  by_cases hi : i < re.length
  · simp [packStep, load, mxGetPr, mxGetPi, mxIsComplex, hi, List.getElem?_eq_getElem hi,
      bind, Except.bind]
  · have hn : re[i]? = none := List.getElem?_eq_none (by omega)
    simp [packStep, load, mxGetPr, hn, bind, Except.bind]

/-- The copy-back half never looks at input slot 3. -/
theorem marshalOut_congr_a {D : Type} [Zero D] (prhs : Input D) (x : MxArray D)
    (post : SolverPost D) :
    marshalOut { prhs with a := x } post = marshalOut prhs post := rfl

/-! ## The claims -/

/-- C1: with a real-only matrix in slot 3 and with the same matrix given as
complex with an all-zero imaginary part, `mexFunction` hands the solver the same
arguments (the same interleaved buffer among them) and returns the same result,
whatever the solver and the rest of the input are. -/
theorem real_matrix_same_as_zero_imag {D : Type} [Zero D] (S : Solver D) (junk : Nat → D)
    (prhs : Input D) (r c : Nat) (re : List D) :
    marshalIn junk { prhs with a := { rows := r, cols := c, pr := re, pi := none } } =
      marshalIn junk { prhs with a :=
        { rows := r, cols := c, pr := re, pi := some (List.replicate re.length 0) } } ∧
    mexFunction S junk { prhs with a := { rows := r, cols := c, pr := re, pi := none } } =
      mexFunction S junk { prhs with a :=
        { rows := r, cols := c, pr := re, pi := some (List.replicate re.length 0) } } := by
  have hin : marshalIn junk { prhs with a := { rows := r, cols := c, pr := re, pi := none } } =
      marshalIn junk { prhs with a :=
        { rows := r, cols := c, pr := re, pi := some (List.replicate re.length 0) } } := by
    simp only [marshalIn, packStep_real_eq_zero_imag r c re]
  refine ⟨hin, ?_⟩
  simp only [mexFunction, hin, marshalOut_congr_a]

end LapWrap
